import Mathlib

/-!
Shallow embedding of `typhon/plugins/core.py` (signal registry, `SignalConnection`,
`SignalPlugin`) together with the fragments of its external collaborators
(Python dynamic values and coercions, ophyd's dtype map, the Qt emission
surface of `PyDMConnection`) that the module's control flow depends on.

Conventions of the embedding:
* A method call is a pure function from its inputs (and the connection
  state) to a new state, a trace of observable effects (`Emission`), and an
  optional uncaught Python exception (`Option PyErr`); `none` means the call
  returned normally.
* `logger.exception` / `logger.error` / `logger.debug` calls sitting in an
  exception handler (and the duplicate-registration diagnostic) are recorded
  as the `Emission.logged` effect; purely informational debug logs on
  success paths are not traced.
* Qt signal emissions may themselves raise (a broken listener); the
  environment (`Env.emitFails`) decides which emissions raise.
-/

/-- The four Python types a `SignalConnection` supports
(`supported_types = [int, float, str, np.ndarray]`). -/
inductive SigType
  | tInt
  | tFloat
  | tStr
  | tNdarray
deriving DecidableEq, Repr

/-- Python exception classes that the module's handlers distinguish.
`keyError` is the only `LookupError` subclass that arises. -/
inductive PyErr
  | keyError
  | typeError
  | valueError
  | generic
deriving DecidableEq, Repr

/-- `KeyError` (raised by `signal_registry[address]` and by dict indexing)
is a subclass of Python's `LookupError`. -/
def isLookupError : PyErr → Bool
  | .keyError => true
  | _ => false

/-- Python runtime values, restricted to the shapes this module moves
around: scalars, enum-string sequences (`list`/`tuple` of `str`) and
opaque numpy arrays (element values abstracted as rationals). -/
inductive PyVal
  | pNone
  | pBool (b : Bool)
  | pInt (n : Int)
  | pFloat (q : Rat)
  | pStr (s : String)
  | pList (l : List String)
  | pTuple (l : List String)
  | pArr (l : List Rat)
deriving DecidableEq, Repr

/-- Truncation toward zero, the rounding `int(float)` performs. -/
def ratTrunc (q : Rat) : Int :=
  if 0 ≤ q then q.floor else -((-q).floor)

/-- Python `int(v)`. Fails with `TypeError` on non-numeric non-string
values and with `ValueError` on unparsable strings. -/
def pyInt : PyVal → Except PyErr PyVal
  | .pBool b => .ok (.pInt (if b then 1 else 0))
  | .pInt n => .ok (.pInt n)
  | .pFloat q => .ok (.pInt (ratTrunc q))
  | .pStr s =>
    match s.toInt? with
    | some n => .ok (.pInt n)
    | none => .error .valueError
  | _ => .error .typeError

/-- Python `float(v)` (string parsing abstracted to integer literals). -/
def pyFloat : PyVal → Except PyErr PyVal
  | .pBool b => .ok (.pFloat (if b then 1 else 0))
  | .pInt n => .ok (.pFloat n)
  | .pFloat q => .ok (.pFloat q)
  | .pStr s =>
    match s.toInt? with
    | some n => .ok (.pFloat n)
    | none => .error .valueError
  | _ => .error .typeError

/-- Rendering used by Python `str(v)`; the exact text is irrelevant to the
module's control flow, only totality matters. -/
def pyShow : PyVal → String
  | .pNone => "None"
  | .pBool b => if b then "True" else "False"
  | .pInt n => toString n
  | .pFloat q => toString q
  | .pStr s => s
  | .pList l => toString l
  | .pTuple l => toString l
  | .pArr l => toString l

/-- Python `str(v)`: total on the values we model. -/
def pyStr (v : PyVal) : Except PyErr PyVal :=
  .ok (.pStr (pyShow v))

/-- Calling `self.signal_type(new_val)`: applies the latched type as a
constructor. Calling `None` raises `TypeError`. -/
def callType : Option SigType → PyVal → Except PyErr PyVal
  | some .tInt, v => pyInt v
  | some .tFloat, v => pyFloat v
  | some .tStr, v => pyStr v
  | some .tNdarray, _ => .error .typeError
  | none, _ => .error .typeError

/-- The coercion both `put_value` and `send_new_value` perform:
`if self.signal_type is not np.ndarray: new_val = self.signal_type(new_val)`.
When the latched type is `np.ndarray` the value passes through uncoerced. -/
def castToType (t : Option SigType) (v : PyVal) : Except PyErr PyVal :=
  if t = some .tNdarray then .ok v else callType t v

/-- Python `tuple(v)`: succeeds on the iterables we model. -/
def pyTuple : PyVal → Except PyErr PyVal
  | .pList l => .ok (.pTuple l)
  | .pTuple l => .ok (.pTuple l)
  | .pStr s => .ok (.pTuple (s.toList.map (fun c => String.mk [c])))
  | .pArr _ => .error .typeError
  | _ => .error .typeError

/-- Python truthiness (`if val:`). A multi-element numpy array raises
("truth value of an array with more than one element is ambiguous"). -/
def pyTruthy : PyVal → Except PyErr Bool
  | .pNone => .ok false
  | .pBool b => .ok b
  | .pInt n => .ok (n ≠ 0)
  | .pFloat q => .ok (q ≠ 0)
  | .pStr s => .ok (s ≠ "")
  | .pList l => .ok (!l.isEmpty)
  | .pTuple l => .ok (!l.isEmpty)
  | .pArr l =>
    match l with
    | [x] => .ok (x ≠ 0)
    | _ => .error .valueError

/-- The metadata dictionary keys the connection routes
(`describe_key_to_signal` and `metadata_key_to_signal`). -/
inductive MetaKey
  | units
  | precision
  | lower_ctrl_limit
  | upper_ctrl_limit
  | enum_strs
  | connected
  | write_access
deriving DecidableEq, Repr

/-- Iteration order of `self._key_to_signal` (Python dicts preserve
insertion order: the five describe keys, then the two metadata keys). -/
def metaKeys : List MetaKey :=
  [.units, .precision, .lower_ctrl_limit, .upper_ctrl_limit,
   .enum_strs, .connected, .write_access]

/-- `supported_types = [int, float, str, np.ndarray]`. -/
def supported_types : List SigType := [.tInt, .tFloat, .tStr, .tNdarray]

/-- The per-listener observable effects of the connection: Qt stream
emissions, the `signal.put` call, caught-and-logged failures, the
operator notification, the ophyd subscriptions and the default
`PyDMConnection` listener setup/teardown. -/
inductive Emission
  | defaultAdd
  | defaultRemove
  | severity (v : PyVal)
  | writeAccess (v : PyVal)
  | connState (v : PyVal)
  | unitE (v : PyVal)
  | precE (v : PyVal)
  | lowerLimitE (v : PyVal)
  | upperLimitE (v : PyVal)
  | enumStrsE (v : PyVal)
  | value (t : SigType) (v : PyVal)
  | connectEdit (t : SigType)
  | disconnectEdit (t : SigType)
  | put (v : PyVal)
  | logged
  | opNotify
  | subValue
  | subMeta
deriving DecidableEq, Repr

/-- `self._key_to_signal`: the Qt stream each metadata key feeds. -/
def keyToSignal : MetaKey → PyVal → Emission
  | .units, v => .unitE v
  | .precision, v => .precE v
  | .lower_ctrl_limit, v => .lowerLimitE v
  | .upper_ctrl_limit, v => .upperLimitE v
  | .enum_strs, v => .enumStrsE v
  | .connected, v => .connState v
  | .write_access, v => .writeAccess v

/-- The inner dictionary `signal.describe()[signal.name]`: the dtype
descriptor plus the optional metadata entries (`none` = key absent,
`some .pNone` = key present holding Python `None`). -/
structure Desc where
  dtype : String
  fields : MetaKey → Option PyVal

/-- Behaviour of the external ophyd signal as the connection observes it:
each capability either returns a value or raises. -/
structure Sig where
  name : String
  connected : Bool
  getRes : Except PyErr PyVal
  describeRes : Except PyErr Desc
  putRes : PyVal → Except PyErr Unit

/-- `SignalConnection` state: the resolved signal and the latched
`signal_type` (`None` until the first value callback). -/
structure Conn where
  address : String
  signal : Sig
  signal_type : Option SigType

/-- A PyDM listener channel: whether it has a `value_signal` and, per
type, whether the typed edit stream exists (`value_signal[typ]` raises
`KeyError` otherwise) and whether `disconnect` raises `TypeError`
(already disconnected). -/
structure Channel where
  valueSignal : Option (SigType → Bool)
  discFails : SigType → Bool

/-- Environment: which Qt emissions raise when attempted (a broken
downstream listener). -/
structure Env where
  emitFails : Emission → Bool

/-- An environment in which every emission succeeds. -/
def benign (env : Env) : Prop := ∀ e, env.emitFails e = false

/-- ophyd's `_type_map` restricted to its first component
(`_type_map[dtype][0]`), an external collaborator: maps the dtype
descriptor to one of the four supported Python types; unknown dtypes
raise `KeyError`. -/
def type_map : String → Option SigType
  | "integer" => some .tInt
  | "number" => some .tFloat
  | "string" => some .tStr
  | "array" => some .tNdarray
  | _ => none

/-- `register_signal(signal)`: insert `signal.name → signal` unless the
name is already registered, in which case log a diagnostic and return
without modifying the registry. Never raises. -/
def register_signal (reg : List (String × Sig)) (s : Sig) :
    List (String × Sig) × List Emission × Option PyErr :=
  match reg.lookup s.name with
  | some _ => (reg, [.logged], none)
  | none => (reg ++ [(s.name, s)], [], none)

/-- The guarded body of `send_new_value` after the type latch: coerce the
value unless the latched type is `np.ndarray`, emit it on the typed value
stream (any failure in this `try` is caught and logged), then — in a
separate `try` — emit the severity when one was supplied. Never raises. -/
def send_body (env : Env) (st : Conn) (value : PyVal) (severity : Option PyVal) :
    Conn × List Emission × Option PyErr :=
  let valueTrace :=
    match castToType st.signal_type value with
    | .error _ => [Emission.logged]
    | .ok v =>
      match st.signal_type with
      | some t =>
        if env.emitFails (.value t v) then [Emission.logged] else [Emission.value t v]
      | none => [Emission.logged]
  let sevTrace :=
    match severity with
    | none => []
    | some s =>
      if env.emitFails (.severity s) then [Emission.logged] else [Emission.severity s]
  (st, valueTrace ++ sevTrace, none)

/-- `send_new_value(value, severity, **kw)`: on the first invocation
(`if not self.signal_type:`) latch `signal_type` from
`_type_map[self.signal.describe()[self.signal.name]['dtype']][0]` — both
the `describe()` call and the dtype lookup sit outside any handler, so
their failures propagate — then run the guarded emission body. -/
def send_new_value (env : Env) (st : Conn) (value : PyVal) (severity : Option PyVal) :
    Conn × List Emission × Option PyErr :=
  match st.signal_type with
  | some _ => send_body env st value severity
  | none =>
    match st.signal.describeRes with
    | .error e => (st, [], some e)
    | .ok desc =>
      match type_map desc.dtype with
      | none => (st, [], some .keyError)
      | some t => send_body env { st with signal_type := some t } value severity

/-- `put_value(new_val)`: coerce to the latched type (`np.ndarray` passes
through; an unlatched `None` type raises `TypeError` when called), then
`signal.put`. The whole body is wrapped in `try/except Exception`, which
logs and calls `raise_to_operator`; nothing propagates. -/
def put_value (st : Conn) (v : PyVal) : List Emission × Option PyErr :=
  match castToType st.signal_type v with
  | .error _ => ([.logged, .opNotify], none)
  | .ok w =>
    match st.signal.putRes w with
    | .ok _ => ([.put w], none)
    | .error _ => ([.put w, .logged, .opNotify], none)

/-- The key loop of `send_metadata`: for each key of `_key_to_signal`,
`info[key]` (a `KeyError` is swallowed), skip `None` values, and emit the
rest — an emission failure is caught and logged (`logger.debug`), so the
remaining keys are still processed. -/
def meta_emit_loop (env : Env) (info : MetaKey → Option PyVal) :
    List MetaKey → List Emission
  | [] => []
  | k :: ks =>
    (match info k with
     | none => []
     | some v =>
       if v = .pNone then []
       else if env.emitFails (keyToSignal k v) then [Emission.logged]
       else [keyToSignal k v]) ++ meta_emit_loop env info ks

/-- The `info` dictionary `send_metadata` builds: when the signal reports
itself connected, the `describe()` snapshot with the callback fields
merged on top (`info.update(**kwargs)` — received fields win), the
`describe()` call unguarded; otherwise the callback fields alone. -/
def merged_info (st : Conn) (kwargs : MetaKey → Option PyVal) :
    Except PyErr (MetaKey → Option PyVal) :=
  if st.signal.connected then
    match st.signal.describeRes with
    | .error e => .error e
    | .ok desc =>
      .ok (fun k =>
        match kwargs k with
        | some v => some v
        | none => desc.fields k)
  else .ok kwargs

/-- `send_metadata(**kwargs)`: build the merged `info`, normalize a
present non-`None` `enum_strs` entry with `tuple(...)` (unguarded — a
failure propagates), then run the key loop. -/
def send_metadata (env : Env) (st : Conn) (kwargs : MetaKey → Option PyVal) :
    List Emission × Option PyErr :=
  match merged_info st kwargs with
  | .error e => ([], some e)
  | .ok info =>
    match info MetaKey.enum_strs with
    | none => (meta_emit_loop env info metaKeys, none)
    | some v =>
      if v = .pNone then (meta_emit_loop env info metaKeys, none)
      else
        match pyTuple v with
        | .error e => ([], some e)
        | .ok tv =>
          (meta_emit_loop env
            (fun k => if k = .enum_strs then some tv else info k) metaKeys, none)

/-- The three fields `add_listener` reports after a successful fetch, in
source order. -/
def attach_fields : List MetaKey := [.precision, .enum_strs, .units]

/-- `if isinstance(val, list): val = tuple(val)` — the normalization the
`add_listener` metadata loop applies before emitting. -/
def list_to_tuple : PyVal → PyVal
  | .pList l => .pTuple l
  | w => w

/-- One iteration of `add_listener`'s metadata loop:
`val = signal_desc.get(field)`, `if val:` (truthiness — a falsy value such
as precision `0` or an empty enum list is skipped), normalize a `list` to
a `tuple`, and emit. Neither the truthiness test nor the emission is
guarded here, so their failures propagate. -/
def emit_field (env : Env) (desc : Desc) (k : MetaKey) :
    Except PyErr (List Emission) :=
  match desc.fields k with
  | none => .ok []
  | some v =>
    match pyTruthy v with
    | .error e => .error e
    | .ok false => .ok []
    | .ok true =>
      if env.emitFails (keyToSignal k (list_to_tuple v)) then .error .generic
      else .ok [keyToSignal k (list_to_tuple v)]

/-- `add_listener`'s metadata loop over `attach_fields`; the trace holds
the emissions made before any propagating failure. -/
def emit_fields (env : Env) (desc : Desc) : List MetaKey → List Emission × Option PyErr
  | [] => ([], none)
  | k :: ks =>
    match emit_field env desc k with
    | .error e => ([], some e)
    | .ok es => (es ++ (emit_fields env desc ks).1, (emit_fields env desc ks).2)

/-- The edit-stream hookup events of `add_listener`'s final loop: when
the channel has a `value_signal`, hook each supported type's edit stream
to `put_value` (a missing typed stream raises `KeyError`, caught and
logged). -/
def connect_events (ch : Channel) : List Emission :=
  match ch.valueSignal with
  | none => []
  | some present =>
    supported_types.map fun t =>
      if present t then Emission.connectEdit t else .logged

/-- The tail of `add_listener` once the fetch succeeded and write-access /
connected have been reported: the metadata field loop, then
`send_new_value(signal_val)` (which may latch the type), then the
edit-stream hookups. -/
def attach_rest (env : Env) (st : Conn) (ch : Channel) (signal_val : PyVal)
    (desc : Desc) : Conn × List Emission × Option PyErr :=
  match (emit_fields env desc attach_fields).2 with
  | some e => (st, (emit_fields env desc attach_fields).1, some e)
  | none =>
    match (send_new_value env st signal_val none).2.2 with
    | some e =>
      ((send_new_value env st signal_val none).1,
       (emit_fields env desc attach_fields).1 ++
         (send_new_value env st signal_val none).2.1, some e)
    | none =>
      ((send_new_value env st signal_val none).1,
       (emit_fields env desc attach_fields).1 ++
         (send_new_value env st signal_val none).2.1 ++ connect_events ch, none)

/-- `add_listener(channel)`: default `PyDMConnection` setup, the
severity-0 baseline, then a guarded synchronous fetch of
`signal.get()` and `signal.describe()[signal.name]` — on failure log and
return without reporting the listener connected. On success emit
write-access `True` and connected `True` (both unguarded), then
`attach_rest`. -/
def add_listener (env : Env) (st : Conn) (ch : Channel) :
    Conn × List Emission × Option PyErr :=
  if env.emitFails (.severity (.pInt 0)) then
    (st, [.defaultAdd], some .generic)
  else
    match st.signal.getRes with
    | .error _ => (st, [.defaultAdd, .severity (.pInt 0), .logged], none)
    | .ok signal_val =>
      match st.signal.describeRes with
      | .error _ => (st, [.defaultAdd, .severity (.pInt 0), .logged], none)
      | .ok desc =>
        if env.emitFails (.writeAccess (.pBool true)) then
          (st, [.defaultAdd, .severity (.pInt 0)], some .generic)
        else if env.emitFails (.connState (.pBool true)) then
          (st, [.defaultAdd, .severity (.pInt 0), .writeAccess (.pBool true)],
           some .generic)
        else
          ((attach_rest env st ch signal_val desc).1,
           [.defaultAdd, .severity (.pInt 0), .writeAccess (.pBool true),
            .connState (.pBool true)] ++ (attach_rest env st ch signal_val desc).2.1,
           (attach_rest env st ch signal_val desc).2.2)

/-- `remove_listener(channel, destroying)`: unless `destroying`, and only
when the channel has a `value_signal`, disconnect `put_value` from the
edit stream of every supported type, swallowing `KeyError` (no such typed
stream) and `TypeError` (not connected); then the default removal.
Never raises. -/
def remove_listener (_st : Conn) (ch : Channel) (destroying : Bool) :
    List Emission × Option PyErr :=
  let dtrace :=
    match ch.valueSignal with
    | none => []
    | some present =>
      if destroying then []
      else
        supported_types.map fun t =>
          if present t && !ch.discFails t then Emission.disconnectEdit t
          else Emission.logged
  (dtrace ++ [.defaultRemove], none)

/-- `SignalConnection.__init__`: `self.signal = signal_registry[address]`
(raises `KeyError`, a `LookupError`, when absent), subscribe to the value
and metadata event streams, then `add_listener(channel)` — whose uncaught
failures propagate out of the constructor. -/
def signal_connection_init (env : Env) (reg : List (String × Sig)) (ch : Channel)
    (address : String) : Except PyErr (Conn × List Emission) :=
  match reg.lookup address with
  | none => .error .keyError
  | some sig =>
    let st : Conn := { address := address, signal := sig, signal_type := none }
    match (add_listener env st ch).2.2 with
    | some e => .error e
    | none =>
      .ok ((add_listener env st ch).1,
        [Emission.subValue, Emission.subMeta] ++ (add_listener env st ch).2.1)

/-- `SignalPlugin.add_connection(channel)`: construct the
`SignalConnection` through the default plugin machinery; `except
KeyError` (signal not registered) and `except Exception` both log and
return, leaving the channel unconnected. Never raises. -/
def add_connection (env : Env) (reg : List (String × Sig)) (ch : Channel)
    (address : String) : Option Conn × List Emission × Option PyErr :=
  match signal_connection_init env reg ch address with
  | .ok (st, tr) => (some st, tr, none)
  | .error _ => (none, [.logged], none)

/-! ### Concrete fixtures used by witnesses and counterexamples -/

/-- A describe snapshot of a floating-point signal whose precision is `0`
(present, non-null, but falsy) and whose units are `"mm"`. -/
def descFloat : Desc :=
  { dtype := "number",
    fields := fun k =>
      match k with
      | .precision => some (.pInt 0)
      | .units => some (.pStr "mm")
      | _ => none }

/-- A healthy floating-point signal. -/
def sigFloat : Sig :=
  { name := "a", connected := true, getRes := .ok (.pFloat 1),
    describeRes := .ok descFloat, putRes := fun _ => .ok () }

/-- A signal whose `describe()` raises while it reports itself connected. -/
def sigDescRaises : Sig :=
  { name := "b", connected := true, getRes := .ok (.pInt 1),
    describeRes := .error .generic, putRes := fun _ => .ok () }

/-- An environment in which every emission succeeds. -/
def env0 : Env := ⟨fun _ => false⟩

/-- A listener channel with no `value_signal`. -/
def ch0 : Channel := ⟨none, fun _ => false⟩

/-- A fresh connection to `sigFloat` (type not yet latched). -/
def conn0 : Conn := ⟨"a", sigFloat, none⟩

/-- A connection to `sigFloat` whose type has latched to `float`. -/
def connF : Conn := ⟨"a", sigFloat, some .tFloat⟩

/-- A connection to the signal whose `describe()` raises. -/
def connD : Conn := ⟨"b", sigDescRaises, none⟩

/-- A concrete metadata callback payload: only the connected flag. -/
def kwargs0 : MetaKey → Option PyVal :=
  fun k =>
    match k with
    | .connected => some (.pBool true)
    | _ => none

/-! ### The spec's description of the metadata broadcast (for refinement) -/

/-- Modelled from the spec's words: "merge the freshly received fields on
top of a full metadata snapshot fetched via describe()" when connected
(received fields win on conflict), "otherwise use only the received
fields". -/
def spec_merged (connected : Bool) (desc : Desc) (kw : MetaKey → Option PyVal) :
    MetaKey → Option PyVal :=
  fun k =>
    if connected then
      match kw k with
      | some v => some v
      | none => desc.fields k
    else kw k

/-- Modelled from the spec's words: "enumeration-string lists are
normalized to an immutable ordered sequence" (a tuple). -/
def spec_normalized (info : MetaKey → Option PyVal) : MetaKey → Option PyVal :=
  fun k =>
    if k = .enum_strs then
      match info k with
      | some (.pList l) => some (.pTuple l)
      | e => e
    else info k

/-- Modelled from the spec's words: "for each of the known metadata keys
that has a non-null value present, broadcast it on its dedicated typed
stream; missing keys are silently skipped". -/
def spec_metadata_events (connected : Bool) (desc : Desc)
    (kw : MetaKey → Option PyVal) : List Emission :=
  metaKeys.filterMap fun k =>
    match spec_normalized (spec_merged connected desc kw) k with
    | none => none
    | some v => if v = .pNone then none else some (keyToSignal k v)

/-! ### Helper lemmas -/

/-- `List.lookup` distributes over append: the left list wins. -/
theorem lookup_append {α β : Type} [BEq α] (l₁ l₂ : List (α × β)) (a : α) :
    (l₁ ++ l₂).lookup a =
      (match l₁.lookup a with
       | some v => some v
       | none => l₂.lookup a) := by
  induction l₁ with
  | nil => simp
  | cons p l ih =>
    obtain ⟨k, v⟩ := p
    cases h : a == k <;> simp [List.lookup, h, ih]

/-- If a trace is `pre ++ rest`, `c` occurs in `pre` and `x` does not,
then any decomposition of the trace at an occurrence of `x` has `c`
strictly before it. -/
theorem mem_left_of_append_eq {α : Type} (c x : α) (pre : List α) :
    ∀ (l₁ : List α) (rest l₂ : List α),
      pre ++ rest = l₁ ++ x :: l₂ → c ∈ pre → x ∉ pre → c ∈ l₁ := by
  induction pre with
  | nil => intro l₁ rest l₂ _ hc _; exact absurd hc (List.not_mem_nil c)
  | cons p ps ih =>
    intro l₁ rest l₂ hsplit hc hx
    cases l₁ with
    | nil =>
      simp at hsplit
      exact absurd (hsplit.1 ▸ List.mem_cons_self p ps) hx
    | cons q qs =>
      simp at hsplit
      rcases List.mem_cons.mp hc with hcp | hcps
      · exact List.mem_cons.mpr (Or.inl (hcp.trans hsplit.1))
      · exact List.mem_cons_of_mem q
          (ih qs rest l₂ hsplit.2 hcps (fun h => hx (List.mem_cons_of_mem p h)))

/-- If a trace is `pre ++ rest` and `x` does not occur in `pre`, a
decomposition of the trace at an occurrence of `x` ends within `rest`. -/
theorem suffix_of_append_eq {α : Type} (x : α) (pre : List α) :
    ∀ (l₁ rest l₂ : List α), pre ++ rest = l₁ ++ x :: l₂ → x ∉ pre →
      ∃ m, rest = m ++ x :: l₂ := by
  induction pre with
  | nil =>
    intro l₁ rest l₂ h _
    exact ⟨l₁, by simpa using h⟩
  | cons p ps ih =>
    intro l₁ rest l₂ h hx
    cases l₁ with
    | nil =>
      simp at h
      exact absurd (List.mem_cons.mpr (Or.inl h.1.symm)) hx
    | cons q qs =>
      simp at h
      exact ih qs rest l₂ h.2 (fun hm => hx (List.mem_cons_of_mem p hm))

/-- A successful `emit_field` produces only emissions on the field's own
typed stream. -/
theorem emit_field_events (env : Env) (desc : Desc) (k : MetaKey)
    (es : List Emission) (hes : emit_field env desc k = .ok es) :
    ∀ e ∈ es, ∃ x, e = keyToSignal k x := by
  intro e he
  unfold emit_field at hes
  split at hes
  · injection hes with h; subst h; simp at he
  · split at hes
    · exact absurd hes (by simp)
    · injection hes with h; subst h; simp at he
    · split at hes
      · exact absurd hes (by simp)
      · injection hes with h; subst h
        simp at he
        exact ⟨_, he⟩

/-- Every event of the metadata field loop is a typed metadata-stream
emission or a logged failure. -/
theorem emit_fields_events (env : Env) (desc : Desc) :
    ∀ ks, ∀ e ∈ (emit_fields env desc ks).1,
      (∃ k x, e = keyToSignal k x) ∨ e = Emission.logged := by
  intro ks
  induction ks with
  | nil => intro e he; simp [emit_fields] at he
  | cons k ks ih =>
    intro e he
    simp only [emit_fields] at he
    cases hf : emit_field env desc k with
    | error err => rw [hf] at he; simp at he
    | ok es =>
      rw [hf] at he
      simp at he
      rcases he with h1 | h2
      · obtain ⟨x, hx⟩ := emit_field_events env desc k es hf e h1
        exact Or.inl ⟨k, x, hx⟩
      · exact ih e h2

/-- Every event of the guarded value-emission body (no severity supplied)
is a typed value emission or a logged failure. -/
theorem send_body_events (env : Env) (st : Conn) (v : PyVal) :
    ∀ e ∈ (send_body env st v none).2.1,
      (∃ t w, e = Emission.value t w) ∨ e = Emission.logged := by
  intro e he
  simp only [send_body, List.append_nil] at he
  split at he
  · simp at he; exact Or.inr he
  · split at he
    · split at he
      · simp at he; exact Or.inr he
      · simp at he; exact Or.inl ⟨_, _, he⟩
    · simp at he; exact Or.inr he

/-- Every event of `send_new_value` (no severity supplied) is a typed
value emission or a logged failure. -/
theorem send_new_value_events (env : Env) (st : Conn) (v : PyVal) :
    ∀ e ∈ (send_new_value env st v none).2.1,
      (∃ t w, e = Emission.value t w) ∨ e = Emission.logged := by
  intro e he
  simp only [send_new_value] at he
  split at he
  · exact send_body_events env st v e he
  · split at he
    · simp at he
    · split at he
      · simp at he
      · exact send_body_events env _ v e he

/-- Every event of the edit-stream hookup loop is a `connectEdit` or a
logged failure. -/
theorem connect_events_spec (ch : Channel) :
    ∀ e ∈ connect_events ch,
      (∃ t, e = Emission.connectEdit t) ∨ e = Emission.logged := by
  intro e he
  unfold connect_events at he
  split at he
  · simp at he
  · simp at he
    obtain ⟨t, _, ht⟩ := he
    split at ht
    · exact Or.inl ⟨t, ht.symm⟩
    · exact Or.inr ht.symm

/-- A metadata-stream emission is never a value emission, an edit hookup
or a logged failure. -/
theorem keyToSignal_ne (k : MetaKey) (x : PyVal) :
    (∀ t w, keyToSignal k x ≠ Emission.value t w) ∧
    (∀ t, keyToSignal k x ≠ Emission.connectEdit t) ∧
    keyToSignal k x ≠ Emission.logged := by
  cases k <;> simp [keyToSignal]

/-- Decomposition of `attach_rest`'s trace: metadata-stream events first,
then only value emissions, edit hookups and logged failures. -/
theorem attach_rest_events (env : Env) (st : Conn) (ch : Channel)
    (sval : PyVal) (desc : Desc) :
    ∃ fieldEvts tail,
      (attach_rest env st ch sval desc).2.1 = fieldEvts ++ tail ∧
      (∀ e ∈ fieldEvts, (∃ k x, e = keyToSignal k x) ∨ e = Emission.logged) ∧
      (∀ e ∈ tail, (∃ t w, e = Emission.value t w) ∨
        (∃ t, e = Emission.connectEdit t) ∨ e = Emission.logged) := by
  unfold attach_rest
  split
  · exact ⟨(emit_fields env desc attach_fields).1, [], by simp,
      emit_fields_events env desc _, by simp⟩
  · split
    · refine ⟨_, _, rfl, emit_fields_events env desc _, fun e he => ?_⟩
      rcases send_new_value_events env st sval e he with h | h
      · exact Or.inl h
      · exact Or.inr (Or.inr h)
    · refine ⟨(emit_fields env desc attach_fields).1, _,
        by rw [List.append_assoc], emit_fields_events env desc _, fun e he => ?_⟩
      rcases List.mem_append.mp he with h | h
      · rcases send_new_value_events env st sval e h with h' | h'
        · exact Or.inl h'
        · exact Or.inr (Or.inr h')
      · rcases connect_events_spec ch e h with h' | h'
        · exact Or.inr (Or.inl h')
        · exact Or.inr (Or.inr h')

/-- `filterMap` only depends on the function's values on the list. -/
theorem filterMap_congr_on {α β : Type} (f g : α → Option β) :
    ∀ l : List α, (∀ a ∈ l, f a = g a) → l.filterMap f = l.filterMap g := by
  intro l
  induction l with
  | nil => intro _; rfl
  | cons a l ih =>
    intro h
    simp only [List.filterMap_cons, h a (List.mem_cons_self a l),
      ih (fun b hb => h b (List.mem_cons_of_mem a hb))]

/-- Under an environment where no emission fails, the key loop of
`send_metadata` emits exactly the present non-null entries, in key
order. -/
theorem meta_emit_loop_benign (env : Env) (henv : benign env)
    (info : MetaKey → Option PyVal) :
    ∀ ks, meta_emit_loop env info ks = ks.filterMap fun k =>
      match info k with
      | none => none
      | some v => if v = .pNone then none else some (keyToSignal k v) := by
  intro ks
  induction ks with
  | nil => rfl
  | cons k ks ih =>
    simp only [meta_emit_loop, ih, List.filterMap_cons]
    cases hk : info k with
    | none => simp
    | some v =>
      by_cases hv : v = .pNone
      · simp [hv]
      · simp [hv, henv (keyToSignal k v)]

/-- The `info` dictionary the code builds is the spec's merge. -/
theorem merged_info_ok (st : Conn) (kwargs : MetaKey → Option PyVal) (desc : Desc)
    (hdesc : st.signal.connected = true → st.signal.describeRes = .ok desc) :
    merged_info st kwargs = .ok (spec_merged st.signal.connected desc kwargs) := by
  unfold merged_info
  cases hc : st.signal.connected
  · rfl
  · rw [hdesc hc]
    rfl

/-- Every event of the metadata field loop originates from some listed
field's successful `emit_field`. -/
theorem emit_fields_sources (env : Env) (desc : Desc) :
    ∀ ks, ∀ e ∈ (emit_fields env desc ks).1,
      ∃ k es, k ∈ ks ∧ emit_field env desc k = .ok es ∧ e ∈ es := by
  intro ks
  induction ks with
  | nil => intro e he; simp [emit_fields] at he
  | cons k ks ih =>
    intro e he
    simp only [emit_fields] at he
    cases hf : emit_field env desc k with
    | error err => rw [hf] at he; simp at he
    | ok es =>
      rw [hf] at he
      rcases List.mem_append.mp he with h1 | h2
      · exact ⟨k, es, List.mem_cons_self k ks, hf, h1⟩
      · obtain ⟨k', es', hk', hf', he'⟩ := ih e h2
        exact ⟨k', es', List.mem_cons_of_mem k hk', hf', he'⟩

/-- When every listed field's value has a well-defined truthiness and no
emission fails, each listed field that is present and truthy is emitted
(normalized) by the field loop. -/
theorem emit_fields_mem (env : Env) (desc : Desc) (henv : benign env) :
    ∀ ks, (∀ k' ∈ ks, ∀ v', desc.fields k' = some v' →
        ∃ b, pyTruthy v' = .ok b) →
      ∀ k v, k ∈ ks → desc.fields k = some v → pyTruthy v = .ok true →
        keyToSignal k (list_to_tuple v) ∈ (emit_fields env desc ks).1 := by
  intro ks
  induction ks with
  | nil => intro _ k v hk; simp at hk
  | cons k' ks ih =>
    intro hok k v hk hv htr
    have hfield : ∀ es, emit_field env desc k' ≠ .error es := by
      intro es hcontra
      unfold emit_field at hcontra
      revert hcontra
      cases hd : desc.fields k' with
      | none => simp
      | some v' =>
        obtain ⟨b, hb⟩ := hok k' (List.mem_cons_self k' ks) v' hd
        simp only [hb]
        cases b
        · simp
        · simp [henv (keyToSignal k' (list_to_tuple v'))]
    simp only [emit_fields]
    cases hf : emit_field env desc k' with
    | error err => exact absurd hf (hfield err)
    | ok es =>
      rcases List.mem_cons.mp hk with hkk | hks
      · subst hkk
        have : emit_field env desc k = .ok [keyToSignal k (list_to_tuple v)] := by
          simp [emit_field, hv, htr, henv (keyToSignal k (list_to_tuple v))]
        rw [hf] at this
        injection this with h
        subst h
        exact List.mem_append_left _ (by simp)
      · exact List.mem_append_right es
          (ih (fun k'' hk'' => hok k'' (List.mem_cons_of_mem k' hk'')) k v hks hv htr)

/-- The trace of `attach_rest` always begins with the metadata field
loop's emissions, and everything after them is a value emission, an edit
hookup or a logged failure. -/
theorem attach_rest_decomp (env : Env) (st : Conn) (ch : Channel)
    (sval : PyVal) (desc : Desc) :
    ∃ rest, (attach_rest env st ch sval desc).2.1 =
      (emit_fields env desc attach_fields).1 ++ rest ∧
      ∀ e ∈ rest, (∃ t w, e = Emission.value t w) ∨
        (∃ t, e = Emission.connectEdit t) ∨ e = Emission.logged := by
  unfold attach_rest
  split
  · exact ⟨[], by simp, by simp⟩
  · split
    · refine ⟨_, rfl, fun e he => ?_⟩
      rcases send_new_value_events env st sval e he with h | h
      · exact Or.inl h
      · exact Or.inr (Or.inr h)
    · refine ⟨_, by rw [List.append_assoc], fun e he => ?_⟩
      rcases List.mem_append.mp he with h | h
      · rcases send_new_value_events env st sval e h with h' | h'
        · exact Or.inl h'
        · exact Or.inr (Or.inr h')
      · rcases connect_events_spec ch e h with h' | h'
        · exact Or.inr (Or.inl h')
        · exact Or.inr (Or.inr h')

/-- A key whose entry is present, non-null, and whose emission does not
fail, is broadcast by the key loop regardless of what other keys do. -/
theorem meta_emit_loop_mem (env : Env) (info : MetaKey → Option PyVal) :
    ∀ ks k w, k ∈ ks → info k = some w → w ≠ .pNone →
      env.emitFails (keyToSignal k w) = false →
      keyToSignal k w ∈ meta_emit_loop env info ks := by
  intro ks
  induction ks with
  | nil => intro k w hk; simp at hk
  | cons k' ks ih =>
    intro k w hk hw hwn hf
    simp only [meta_emit_loop]
    rcases List.mem_cons.mp hk with hkk | hks
    · subst hkk
      rw [hw]
      simp [hwn, hf]
    · exact List.mem_append_right _ (ih k w hks hw hwn hf)

/-- Every metadata key is in the iteration order list. -/
theorem mem_metaKeys (k : MetaKey) : k ∈ metaKeys := by
  cases k <;> simp [metaKeys]

/-! ### Claim theorems -/

/-- C3: `register_signal` inserts `s.name → s` when the name is absent
(leaving every other name's resolution unchanged); when the name is
already present it logs a diagnostic and leaves the registry unmodified,
so the originally registered signal stays resolvable; no exception is
raised in either case. -/
theorem C3_registry_idempotent (reg : List (String × Sig)) (s : Sig) :
    (reg.lookup s.name = none →
      (register_signal reg s).1.lookup s.name = some s ∧
      ∀ n, n ≠ s.name → (register_signal reg s).1.lookup n = reg.lookup n) ∧
    (∀ s₀, reg.lookup s.name = some s₀ →
      register_signal reg s = (reg, [.logged], none) ∧
      (register_signal reg s).1.lookup s.name = some s₀) ∧
    (register_signal reg s).2.2 = none := by
  refine ⟨fun habs => ?_, fun s₀ hpres => ?_, ?_⟩
  · refine ⟨?_, fun n hn => ?_⟩
    · simp [register_signal, habs, lookup_append, List.lookup]
    · have hne : (n == s.name) = false := by
        simp [hn]
      simp [register_signal, habs, lookup_append, List.lookup, hne]
      cases List.lookup n reg <;> rfl
  · constructor
    · simp [register_signal, hpres]
    · simp [register_signal, hpres]
  · unfold register_signal
    cases reg.lookup s.name <;> simp

/-- Witness for C3 at a concrete input: registering into the empty
registry makes the signal resolvable. -/
theorem C3_registry_idempotent_witness :
    ([] : List (String × Sig)).lookup sigFloat.name = none ∧
    (register_signal [] sigFloat).1.lookup sigFloat.name = some sigFloat :=
  ⟨rfl, ((C3_registry_idempotent [] sigFloat).1 rfl).1⟩

/-- Behaviour of the guarded emission body of `send_new_value` once a
type is latched: the state is untouched, nothing propagates, every value
emission carries the latched type and the coerced value, and a
successfully coerced value is emitted whenever its emission does not
fail. -/
theorem send_body_trace (env : Env) (st : Conn) (v : PyVal) (sev : Option PyVal)
    (t : SigType) (h : st.signal_type = some t) :
    send_body env st v sev = (st,
      (match castToType (some t) v with
       | .error _ => [Emission.logged]
       | .ok w => if env.emitFails (.value t w) then [Emission.logged]
                  else [Emission.value t w]) ++
      (match sev with
       | none => []
       | some s => if env.emitFails (.severity s) then [Emission.logged]
                   else [Emission.severity s]),
      none) := by
  simp only [send_body, h]

theorem send_body_spec (env : Env) (st : Conn) (v : PyVal) (sev : Option PyVal)
    (t : SigType) (h : st.signal_type = some t) :
    (send_body env st v sev).1 = st ∧
    (send_body env st v sev).2.2 = none ∧
    (∀ t' v', Emission.value t' v' ∈ (send_body env st v sev).2.1 →
      t' = t ∧ castToType (some t) v = .ok v') ∧
    (∀ w, castToType (some t) v = .ok w → env.emitFails (.value t w) = false →
      Emission.value t w ∈ (send_body env st v sev).2.1) := by
  have htr := send_body_trace env st v sev t h
  refine ⟨by rw [htr], by rw [htr], fun t' v' hmem => ?_, fun w hw hf => ?_⟩
  · rw [htr] at hmem
    simp only [List.mem_append] at hmem
    rcases hmem with h1 | h2
    · cases hc : castToType (some t) v with
      | error e => rw [hc] at h1; simp at h1
      | ok w =>
        rw [hc] at h1
        by_cases hcnd : env.emitFails (.value t w) = true
        · simp [hcnd] at h1
        · simp [hcnd] at h1
          exact ⟨h1.1, by rw [h1.2]⟩
    · cases sev with
      | none => simp at h2
      | some s =>
        by_cases hcnd : env.emitFails (.severity s) = true <;> simp [hcnd] at h2
  · rw [htr]
    simp [hw, hf]

/-- C1: on the first value callback the connection latches its value type
from the signal's self-reported dtype descriptor mapped through
`_type_map` into {int, float, str, ndarray}; a latched type survives every
later callback unchanged, and every value broadcast by a callback carries
the latched type and the value coerced to it — except that when the
latched type is `np.ndarray` the value is broadcast uncoerced. -/
theorem C1_type_latch (env : Env) (st : Conn) (v : PyVal) (sev : Option PyVal) :
    (∀ t, st.signal_type = some t →
      (send_new_value env st v sev).1.signal_type = some t ∧
      (∀ t' v', Emission.value t' v' ∈ (send_new_value env st v sev).2.1 →
        t' = t ∧ castToType (some t) v = .ok v' ∧ (t = .tNdarray → v' = v)) ∧
      (∀ w, castToType (some t) v = .ok w → env.emitFails (.value t w) = false →
        Emission.value t w ∈ (send_new_value env st v sev).2.1)) ∧
    (∀ desc u, st.signal_type = none → st.signal.describeRes = .ok desc →
      type_map desc.dtype = some u →
      (send_new_value env st v sev).1.signal_type = some u ∧
      (∀ t' v', Emission.value t' v' ∈ (send_new_value env st v sev).2.1 →
        t' = u ∧ castToType (some u) v = .ok v')) := by
  constructor
  · intro t hlatch
    have hred : send_new_value env st v sev = send_body env st v sev := by
      simp [send_new_value, hlatch]
    obtain ⟨h1, _, h3, h4⟩ := send_body_spec env st v sev t hlatch
    rw [hred]
    refine ⟨by rw [h1]; exact hlatch, fun t' v' hmem => ?_, h4⟩
    obtain ⟨ht, hc⟩ := h3 t' v' hmem
    refine ⟨ht, hc, fun hnd => ?_⟩
    rw [hnd] at hc
    simp [castToType] at hc
    exact hc.symm
  · intro desc u hnone hdesc hmap
    have hred : send_new_value env st v sev =
        send_body env { st with signal_type := some u } v sev := by
      simp [send_new_value, hnone, hdesc, hmap]
    obtain ⟨h1, _, h3, _⟩ :=
      send_body_spec env { st with signal_type := some u } v sev u rfl
    rw [hred]
    exact ⟨by rw [h1], h3⟩

/-- Witness for C1 at a concrete input: a fresh connection to the float
signal latches to `float` on the first value callback, and once latched an
integer `3` is broadcast as `3.0`. -/
theorem C1_type_latch_witness :
    (send_new_value env0 conn0 (.pInt 1) none).1.signal_type = some .tFloat ∧
    Emission.value .tFloat (.pFloat 3) ∈
      (send_new_value env0 connF (.pInt 3) none).2.1 :=
  ⟨((C1_type_latch env0 conn0 (.pInt 1) none).2 descFloat .tFloat rfl rfl rfl).1,
   (((C1_type_latch env0 connF (.pInt 3) none).1 .tFloat rfl).2.2 (.pFloat 3)
     rfl rfl)⟩

/-- C2: for every newly attached listener the severity baseline
(severity 0) is the first stream emission; when the synchronous fetch of
the current value or metadata raises, the attach logs and aborts with no
connected-state=true and no value ever emitted to the listener; on a
successful fetch write-access=true then connected=true follow the
baseline and precede all metadata and value traffic, so the listener
observes connected-state=true strictly before any value update, and no
metadata-field emission follows a value update. -/
theorem C2_attach_ordering (env : Env) (st : Conn) (ch : Channel)
    (henv : benign env) :
    (∀ e, st.signal.getRes = .error e →
      add_listener env st ch =
        (st, [.defaultAdd, .severity (.pInt 0), .logged], none) ∧
      (∀ b, Emission.connState b ∉ (add_listener env st ch).2.1) ∧
      (∀ t w, Emission.value t w ∉ (add_listener env st ch).2.1)) ∧
    (∀ e sval, st.signal.getRes = .ok sval → st.signal.describeRes = .error e →
      add_listener env st ch =
        (st, [.defaultAdd, .severity (.pInt 0), .logged], none) ∧
      (∀ b, Emission.connState b ∉ (add_listener env st ch).2.1) ∧
      (∀ t w, Emission.value t w ∉ (add_listener env st ch).2.1)) ∧
    (∀ sval desc, st.signal.getRes = .ok sval → st.signal.describeRes = .ok desc →
      (add_listener env st ch).2.1.take 4 =
        [.defaultAdd, .severity (.pInt 0), .writeAccess (.pBool true),
         .connState (.pBool true)] ∧
      (∀ l₁ l₂ t w,
        (add_listener env st ch).2.1 = l₁ ++ Emission.value t w :: l₂ →
        Emission.connState (.pBool true) ∈ l₁ ∧
        ∀ k x, keyToSignal k x ∉ l₂)) := by
  have h0 : env.emitFails (.severity (.pInt 0)) = false := henv _
  have hwa : env.emitFails (.writeAccess (.pBool true)) = false := henv _
  have hcs : env.emitFails (.connState (.pBool true)) = false := henv _
  refine ⟨fun e hget => ?_, fun e sval hget hdesc => ?_,
    fun sval desc hget hdesc => ?_⟩
  · have hred : add_listener env st ch =
        (st, [.defaultAdd, .severity (.pInt 0), .logged], none) := by
      simp [add_listener, h0, hget]
    exact ⟨hred, fun b => by simp [hred], fun t w => by simp [hred]⟩
  · have hred : add_listener env st ch =
        (st, [.defaultAdd, .severity (.pInt 0), .logged], none) := by
      simp [add_listener, h0, hget, hdesc]
    exact ⟨hred, fun b => by simp [hred], fun t w => by simp [hred]⟩
  · have hred : add_listener env st ch =
        ((attach_rest env st ch sval desc).1,
         [.defaultAdd, .severity (.pInt 0), .writeAccess (.pBool true),
          .connState (.pBool true)] ++ (attach_rest env st ch sval desc).2.1,
         (attach_rest env st ch sval desc).2.2) := by
      simp [add_listener, h0, hwa, hcs, hget, hdesc]
    obtain ⟨fieldEvts, tail, hdecomp, hfield, htail⟩ :=
      attach_rest_events env st ch sval desc
    refine ⟨by rw [hred]; rfl, fun l₁ l₂ t w hsplit => ?_⟩
    rw [hred] at hsplit
    simp only [hdecomp] at hsplit
    have hsplit' :
        ([Emission.defaultAdd, .severity (.pInt 0), .writeAccess (.pBool true),
          .connState (.pBool true)] ++ fieldEvts) ++ tail =
          l₁ ++ Emission.value t w :: l₂ := by
      rw [List.append_assoc]
      exact hsplit
    have hxnot : Emission.value t w ∉
        [Emission.defaultAdd, .severity (.pInt 0), .writeAccess (.pBool true),
         .connState (.pBool true)] ++ fieldEvts := by
      intro hmem
      rcases List.mem_append.mp hmem with h1 | h2
      · simp at h1
      · rcases hfield _ h2 with ⟨k, x, hk⟩ | hl
        · exact (keyToSignal_ne k x).1 t w hk.symm
        · exact Emission.noConfusion hl
    have hconn : Emission.connState (.pBool true) ∈
        [Emission.defaultAdd, .severity (.pInt 0), .writeAccess (.pBool true),
         .connState (.pBool true)] ++ fieldEvts :=
      List.mem_append.mpr (Or.inl (by simp))
    refine ⟨mem_left_of_append_eq _ _ _ l₁ tail l₂ hsplit' hconn hxnot,
      fun k x hkx => ?_⟩
    obtain ⟨m, hm⟩ := suffix_of_append_eq _ _ l₁ tail l₂ hsplit' hxnot
    have hintail : keyToSignal k x ∈ tail := by
      rw [hm]
      exact List.mem_append_right m (List.mem_cons_of_mem _ hkx)
    rcases htail _ hintail with ⟨t', w', h'⟩ | ⟨t', h'⟩ | h'
    · exact (keyToSignal_ne k x).1 t' w' h'
    · exact (keyToSignal_ne k x).2.1 t' h'
    · exact (keyToSignal_ne k x).2.2 h'

/-- Witness for C2 at a concrete input: attaching a listener to the
healthy float signal produces the baseline, write-access and
connected-state emissions in order. -/
theorem C2_attach_ordering_witness :
    benign env0 ∧
    (add_listener env0 conn0 ch0).2.1.take 4 =
      [.defaultAdd, .severity (.pInt 0), .writeAccess (.pBool true),
       .connState (.pBool true)] :=
  ⟨fun _ => rfl,
   ((C2_attach_ordering env0 conn0 ch0 (fun _ => rfl)).2.2
     (.pFloat 1) descFloat rfl rfl).1⟩

/-- C4: `put_value` coerces the value to the latched type (`np.ndarray`
passes through inside `castToType`), calls `signal.put` with the coerced
value, and catches, logs and routes to the operator any coercion or put
failure; it never lets an exception propagate. -/
theorem C4_put_value (st : Conn) (v : PyVal) :
    (put_value st v).2 = none ∧
    (∀ w, castToType st.signal_type v = .ok w →
      Emission.put w ∈ (put_value st v).1 ∧
      (st.signal.putRes w = .ok () → (put_value st v).1 = [.put w]) ∧
      (∀ e, st.signal.putRes w = .error e →
        (put_value st v).1 = [.put w, .logged, .opNotify])) ∧
    (∀ e, castToType st.signal_type v = .error e →
      (put_value st v).1 = [.logged, .opNotify] ∧
      ∀ w, Emission.put w ∉ (put_value st v).1) := by
  refine ⟨?_, fun w hw => ?_, fun e he => ?_⟩
  · unfold put_value
    split
    · rfl
    · split <;> rfl
  · refine ⟨?_, fun hput => ?_, fun e hput => ?_⟩
    · simp only [put_value, hw]
      cases hp : st.signal.putRes w <;> simp [hp]
    · simp [put_value, hw, hput]
    · simp [put_value, hw, hput]
  · constructor
    · simp [put_value, he]
    · intro w
      simp [put_value, he]

/-- Witness for C4 at a concrete input: with the type latched to `float`,
putting the integer `2` calls `signal.put` with `2.0`. -/
theorem C4_put_value_witness :
    castToType connF.signal_type (.pInt 2) = .ok (.pFloat 2) ∧
    Emission.put (.pFloat 2) ∈ (put_value connF (.pInt 2)).1 :=
  ⟨rfl, ((C4_put_value connF (.pInt 2)).2.1 (.pFloat 2) rfl).1⟩

/-- C7: when no emission fails and (if the signal reports itself
connected) `describe()` succeeds, `send_metadata` broadcasts exactly what
the spec describes: the describe snapshot with the received fields merged
on top when connected (received fields win), the received fields alone
otherwise; enumeration-string lists normalized to a tuple; and each of
the seven known keys emitted on its dedicated stream precisely when
present with a non-null value, absent keys skipped without error. -/
theorem C7_send_metadata (env : Env) (st : Conn) (kwargs : MetaKey → Option PyVal)
    (desc : Desc) (henv : benign env)
    (hdesc : st.signal.connected = true → st.signal.describeRes = .ok desc)
    (henum : ∀ v,
      spec_merged st.signal.connected desc kwargs .enum_strs = some v →
      v = .pNone ∨ (∃ l, v = .pList l) ∨ (∃ l, v = .pTuple l)) :
    send_metadata env st kwargs =
      (spec_metadata_events st.signal.connected desc kwargs, none) := by
  have hmi := merged_info_ok st kwargs desc hdesc
  have hloop : ∀ (info' : MetaKey → Option PyVal),
      (∀ k, info' k =
        spec_normalized (spec_merged st.signal.connected desc kwargs) k) →
      meta_emit_loop env info' metaKeys =
        spec_metadata_events st.signal.connected desc kwargs := by
    intro info' hpt
    rw [meta_emit_loop_benign env henv info' metaKeys]
    unfold spec_metadata_events
    exact filterMap_congr_on _ _ metaKeys (fun k _ => by rw [hpt k])
  simp only [send_metadata, hmi]
  cases hen : spec_merged st.signal.connected desc kwargs MetaKey.enum_strs with
  | none =>
    rw [hloop (spec_merged st.signal.connected desc kwargs) ?_]
    intro k
    by_cases hk : k = MetaKey.enum_strs
    · subst hk
      simp [spec_normalized, hen]
    · simp [spec_normalized, hk]
  | some v =>
    rcases henum v hen with hvN | ⟨l, rfl⟩ | ⟨l, rfl⟩
    · subst hvN
      show (meta_emit_loop env
        (spec_merged st.signal.connected desc kwargs) metaKeys,
        (none : Option PyErr)) = _
      rw [hloop (spec_merged st.signal.connected desc kwargs) ?_]
      intro k
      by_cases hk : k = MetaKey.enum_strs
      · subst hk
        simp [spec_normalized, hen]
      · simp [spec_normalized, hk]
    · show (meta_emit_loop env
        (fun k => if k = MetaKey.enum_strs then some (PyVal.pTuple l)
          else spec_merged st.signal.connected desc kwargs k) metaKeys,
        (none : Option PyErr)) = _
      rw [hloop _ ?_]
      intro k
      by_cases hk : k = MetaKey.enum_strs
      · subst hk
        simp [spec_normalized, hen]
      · simp [spec_normalized, hk]
    · show (meta_emit_loop env
        (fun k => if k = MetaKey.enum_strs then some (PyVal.pTuple l)
          else spec_merged st.signal.connected desc kwargs k) metaKeys,
        (none : Option PyErr)) = _
      rw [hloop _ ?_]
      intro k
      by_cases hk : k = MetaKey.enum_strs
      · subst hk
        simp [spec_normalized, hen]
      · simp [spec_normalized, hk]

/-- Witness for C7 at a concrete input: a connected-flag metadata
callback on the healthy float connection broadcasts the merged snapshot. -/
theorem C7_send_metadata_witness :
    send_metadata env0 connF kwargs0 =
      (spec_metadata_events connF.signal.connected descFloat kwargs0, none) :=
  C7_send_metadata env0 connF kwargs0 descFloat (fun _ => rfl) (fun _ => rfl)
    (fun v h => by simp [spec_merged, kwargs0, descFloat] at h)

/-- Reduction of `send_metadata` under a well-shaped enum entry: the call
returns normally and runs the key loop over a dictionary that agrees with
the spec's merge on every key other than `enum_strs`. -/
theorem send_metadata_reduces (env : Env) (st : Conn)
    (kwargs : MetaKey → Option PyVal) (desc : Desc)
    (hdesc : st.signal.connected = true → st.signal.describeRes = .ok desc)
    (henum : ∀ v',
      spec_merged st.signal.connected desc kwargs .enum_strs = some v' →
      v' = .pNone ∨ (∃ l, v' = .pList l) ∨ (∃ l, v' = .pTuple l)) :
    ∃ info',
      send_metadata env st kwargs = (meta_emit_loop env info' metaKeys, none) ∧
      ∀ k, k ≠ MetaKey.enum_strs →
        info' k = spec_merged st.signal.connected desc kwargs k := by
  have hmi := merged_info_ok st kwargs desc hdesc
  simp only [send_metadata, hmi]
  cases hen : spec_merged st.signal.connected desc kwargs MetaKey.enum_strs with
  | none =>
    exact ⟨spec_merged st.signal.connected desc kwargs, rfl, fun k _ => rfl⟩
  | some v =>
    rcases henum v hen with hvN | ⟨l, rfl⟩ | ⟨l, rfl⟩
    · subst hvN
      exact ⟨spec_merged st.signal.connected desc kwargs, rfl, fun k _ => rfl⟩
    · exact ⟨fun k => if k = MetaKey.enum_strs then some (PyVal.pTuple l)
        else spec_merged st.signal.connected desc kwargs k, rfl,
        fun k hk => by simp [hk]⟩
    · exact ⟨fun k => if k = MetaKey.enum_strs then some (PyVal.pTuple l)
        else spec_merged st.signal.connected desc kwargs k, rfl,
        fun k hk => by simp [hk]⟩

/-- C5 counterexample: with the signal reporting itself connected,
`send_metadata` calls `describe()` outside any handler, so a raising
`describe()` propagates out of the callback with no log entry — refuting
the claim that every failure of a signal access operation inside these
callbacks is caught and converted to a log entry. -/
theorem C5_counterexample :
    (send_metadata env0 connD kwargs0).2 = some PyErr.generic ∧
    Emission.logged ∉ (send_metadata env0 connD kwargs0).1 := by
  have h : send_metadata env0 connD kwargs0 = ([], some PyErr.generic) := rfl
  exact ⟨by rw [h], by rw [h]; simp⟩

/-- C5 (amended): within the guarded regions failures are caught and
logged — `put_value` never propagates anything; `send_new_value` with an
already-latched type never propagates; `add_listener`'s synchronous fetch
failure is caught and logged; and `send_metadata`'s per-key emission
failures are isolated, so each present non-null key whose own emission
works is still broadcast. (The unguarded `describe()` calls — in
`send_metadata` when connected and in `send_new_value`'s first-call type
latch — remain able to propagate, as the counterexample shows.) -/
theorem C5_error_containment (env : Env) (st : Conn) (ch : Channel)
    (v : PyVal) (sev : Option PyVal) (kwargs : MetaKey → Option PyVal)
    (desc : Desc) :
    (put_value st v).2 = none ∧
    (∀ t, st.signal_type = some t → (send_new_value env st v sev).2.2 = none) ∧
    (∀ e, env.emitFails (.severity (.pInt 0)) = false →
      st.signal.getRes = .error e →
      (add_listener env st ch).2.2 = none ∧
      Emission.logged ∈ (add_listener env st ch).2.1) ∧
    ((st.signal.connected = true → st.signal.describeRes = .ok desc) →
      (∀ v', spec_merged st.signal.connected desc kwargs .enum_strs = some v' →
        v' = .pNone ∨ (∃ l, v' = .pList l) ∨ (∃ l, v' = .pTuple l)) →
      (send_metadata env st kwargs).2 = none ∧
      (∀ k w, k ≠ MetaKey.enum_strs →
        spec_merged st.signal.connected desc kwargs k = some w →
        w ≠ .pNone → env.emitFails (keyToSignal k w) = false →
        keyToSignal k w ∈ (send_metadata env st kwargs).1)) := by
  refine ⟨?_, fun t ht => ?_, fun e h0 hget => ?_, fun hdesc henum => ?_⟩
  · unfold put_value
    split
    · rfl
    · split <;> rfl
  · have hred : send_new_value env st v sev = send_body env st v sev := by
      simp [send_new_value, ht]
    rw [hred]
    exact (send_body_spec env st v sev t ht).2.1
  · have hred : add_listener env st ch =
        (st, [.defaultAdd, .severity (.pInt 0), .logged], none) := by
      simp [add_listener, h0, hget]
    exact ⟨by simp [hred], by simp [hred]⟩
  · obtain ⟨info', heq, hagree⟩ :=
      send_metadata_reduces env st kwargs desc hdesc henum
    refine ⟨by simp [heq], fun k w hk hw hwn hf => ?_⟩
    rw [heq]
    exact meta_emit_loop_mem env info' metaKeys k w (mem_metaKeys k)
      ((hagree k hk).trans hw) hwn hf

/-- Witness for the amended C5 at a concrete input: a put against the
latched float connection returns normally, and a metadata callback on it
returns normally. -/
theorem C5_error_containment_witness :
    (put_value connF (.pInt 1)).2 = none ∧
    (send_metadata env0 connF kwargs0).2 = none :=
  ⟨(C5_error_containment env0 connF ch0 (.pInt 1) none kwargs0 descFloat).1,
   ((C5_error_containment env0 connF ch0 (.pInt 1) none kwargs0 descFloat).2.2.2
     (fun _ => rfl)
     (fun v' h => by simp [spec_merged, kwargs0, descFloat] at h)).1⟩

/-- C6: constructing a `SignalConnection` for an unregistered address
fails with `KeyError`, a `LookupError`-class condition; the plugin's
`add_connection` catches this (and any other construction failure), logs
it and returns without raising, leaving the channel unconnected; and a
later attempt on the same address succeeds once the signal is
registered (concrete retry scenario included). -/
theorem C6_unregistered_address (env : Env) (reg : List (String × Sig))
    (ch : Channel) (address : String) :
    (reg.lookup address = none →
      signal_connection_init env reg ch address = .error .keyError ∧
      isLookupError .keyError = true ∧
      add_connection env reg ch address = (none, [.logged], none)) ∧
    ((add_connection env reg ch address).2.2 = none) ∧
    (add_connection env0 [] ch0 "a" = (none, [.logged], none) ∧
      (add_connection env0 (register_signal [] sigFloat).1 ch0 "a").1.isSome
        = true) := by
  refine ⟨fun habs => ?_, ?_, by constructor <;> rfl⟩
  · have h1 : signal_connection_init env reg ch address = .error .keyError := by
      simp [signal_connection_init, habs]
    exact ⟨h1, rfl, by simp [add_connection, h1]⟩
  · unfold add_connection
    split <;> rfl

/-- Witness for C6 at a concrete input: an empty registry has no signal
for address `x`, and the plugin logs and returns without raising. -/
theorem C6_unregistered_address_witness :
    ([] : List (String × Sig)).lookup "x" = none ∧
    add_connection env0 [] ch0 "x" = (none, [.logged], none) :=
  ⟨rfl, ((C6_unregistered_address env0 [] ch0 "x").1 rfl).2.2⟩

/-- C8 counterexample: the metadata loop of `add_listener` tests
truthiness (`if val:`), so a precision that is present with the non-null
value `0` is available in the describe metadata yet is never emitted —
refuting the claim that every available field is emitted. -/
theorem C8_counterexample :
    descFloat.fields .precision = some (.pInt 0) ∧
    Emission.precE (.pInt 0) ∉ (add_listener env0 conn0 ch0).2.1 := by
  have h : (add_listener env0 conn0 ch0).2.1 =
      [.defaultAdd, .severity (.pInt 0), .writeAccess (.pBool true),
       .connState (.pBool true), .unitE (.pStr "mm"),
       .value .tFloat (.pFloat 1)] := rfl
  exact ⟨rfl, by rw [h]; simp⟩

/-- C8 (amended): during a successful attach, each of precision,
enum_strs and units that is present in the describe metadata with a
truthy value (non-zero, non-empty) is emitted on its typed stream, with
lists normalized to tuples; a falsy value — such as precision `0` — is
skipped, so no precision emission occurs at all. -/
theorem C8_attach_metadata (env : Env) (st : Conn) (ch : Channel)
    (sval : PyVal) (desc : Desc) (henv : benign env)
    (hget : st.signal.getRes = .ok sval)
    (hdesc : st.signal.describeRes = .ok desc)
    (htruthy : ∀ k ∈ attach_fields, ∀ w, desc.fields k = some w →
      ∃ b, pyTruthy w = .ok b) :
    (∀ k ∈ attach_fields, ∀ w, desc.fields k = some w →
      pyTruthy w = .ok true →
      keyToSignal k (list_to_tuple w) ∈ (add_listener env st ch).2.1) ∧
    (∀ w, desc.fields .precision = some w → pyTruthy w = .ok false →
      ∀ x, Emission.precE x ∉ (add_listener env st ch).2.1) := by
  have h0 : env.emitFails (.severity (.pInt 0)) = false := henv _
  have hwa : env.emitFails (.writeAccess (.pBool true)) = false := henv _
  have hcs : env.emitFails (.connState (.pBool true)) = false := henv _
  have hred : add_listener env st ch =
      ((attach_rest env st ch sval desc).1,
       [.defaultAdd, .severity (.pInt 0), .writeAccess (.pBool true),
        .connState (.pBool true)] ++ (attach_rest env st ch sval desc).2.1,
       (attach_rest env st ch sval desc).2.2) := by
    simp [add_listener, h0, hwa, hcs, hget, hdesc]
  obtain ⟨rest, hdec, hrest⟩ := attach_rest_decomp env st ch sval desc
  constructor
  · intro k hk w hw htr
    have hm := emit_fields_mem env desc henv attach_fields htruthy k w hk hw htr
    rw [hred]
    refine List.mem_append_right _ ?_
    rw [hdec]
    exact List.mem_append_left rest hm
  · intro w hp hf x hmem
    rw [hred] at hmem
    rcases List.mem_append.mp hmem with h1 | h2
    · simp at h1
    · rw [hdec] at h2
      rcases List.mem_append.mp h2 with h3 | h4
      · obtain ⟨k, es, hkmem, hfk, hes⟩ :=
          emit_fields_sources env desc attach_fields _ h3
        obtain ⟨y, hy⟩ := emit_field_events env desc k es hfk _ hes
        have hk3 : k = MetaKey.precision ∨ k = MetaKey.enum_strs ∨
            k = MetaKey.units := by
          simpa [attach_fields] using hkmem
        rcases hk3 with rfl | rfl | rfl
        · have hok : emit_field env desc MetaKey.precision = .ok [] := by
            unfold emit_field
            simp only [hp, hf]
          rw [hok] at hfk
          injection hfk with hesnil
          subst hesnil
          simp at hes
        · simp [keyToSignal] at hy
        · simp [keyToSignal] at hy
      · rcases hrest _ h4 with ⟨t, u, h'⟩ | ⟨t, h'⟩ | h' <;>
          exact Emission.noConfusion h'

/-- Witness for the amended C8 at a concrete input: the truthy units
string `"mm"` of the float signal is emitted during attach. -/
theorem C8_attach_metadata_witness :
    descFloat.fields .units = some (.pStr "mm") ∧
    Emission.unitE (.pStr "mm") ∈ (add_listener env0 conn0 ch0).2.1 := by
  refine ⟨rfl, ?_⟩
  have htruthy : ∀ k ∈ attach_fields, ∀ w, descFloat.fields k = some w →
      ∃ b, pyTruthy w = .ok b := by
    intro k hk w hw
    have hk3 : k = MetaKey.precision ∨ k = MetaKey.enum_strs ∨
        k = MetaKey.units := by
      simpa [attach_fields] using hk
    rcases hk3 with rfl | rfl | rfl
    · simp [descFloat] at hw
      subst hw
      exact ⟨false, rfl⟩
    · simp [descFloat] at hw
    · simp [descFloat] at hw
      subst hw
      exact ⟨true, rfl⟩
  exact (C8_attach_metadata env0 conn0 ch0 (.pFloat 1) descFloat
    (fun _ => rfl) rfl rfl htruthy).1 .units (by simp [attach_fields])
    (.pStr "mm") rfl rfl

/-- C9: `remove_listener` never raises; when `destroying` is true, or
when the channel has no `value_signal`, only the default removal runs;
otherwise the edit stream of each of the four supported types is
disconnected, a missing or already-disconnected stream is tolerated as a
logged non-error, and the default removal follows. -/
theorem C9_remove_listener (st : Conn) (ch : Channel) (d : Bool) :
    (remove_listener st ch d).2 = none ∧
    (d = true → (remove_listener st ch d).1 = [.defaultRemove]) ∧
    (ch.valueSignal = none → (remove_listener st ch d).1 = [.defaultRemove]) ∧
    (∀ present, ch.valueSignal = some present → d = false →
      (remove_listener st ch d).1 =
        (supported_types.map fun t =>
          if present t && !ch.discFails t then Emission.disconnectEdit t
          else Emission.logged) ++ [.defaultRemove] ∧
      ∀ t, t ∈ supported_types → present t = true → ch.discFails t = false →
        Emission.disconnectEdit t ∈ (remove_listener st ch d).1) := by
  refine ⟨?_, fun hd => ?_, fun hv => ?_, fun present hv hd => ?_⟩
  · unfold remove_listener
    cases ch.valueSignal <;> simp
  · unfold remove_listener
    cases ch.valueSignal <;> simp [hd]
  · simp [remove_listener, hv]
  · subst hd
    refine ⟨by simp [remove_listener, hv], fun t ht hp hf => ?_⟩
    simp [remove_listener, hv]
    refine ⟨t, ht, by simp [hp, hf]⟩

/-- Witness for C9 at a concrete input: a channel with no `value_signal`
yields only the default removal. -/
theorem C9_remove_listener_witness :
    (remove_listener conn0 ch0 false).1 = [.defaultRemove] :=
  (C9_remove_listener conn0 ch0 false).2.2.1 rfl

/-- C10: before any value callback has latched a type
(`signal_type = None`), `put_value` on a non-array value fails in the
coercion step (`None` is not callable), never reaches `signal.put`, and
the failure is caught, logged and routed to the operator — nothing
propagates. -/
theorem C10_put_before_first_value (st : Conn) (v : PyVal)
    (hlatch : st.signal_type = none) (_harr : ∀ l, v ≠ .pArr l) :
    put_value st v = ([.logged, .opNotify], none) ∧
    ∀ w, Emission.put w ∉ (put_value st v).1 := by
  have hc : castToType st.signal_type v = .error .typeError := by
    simp [castToType, callType, hlatch]
  refine ⟨by simp [put_value, hc], fun w => by simp [put_value, hc]⟩

/-- Witness for C10 at a concrete input: an edit of `5` against a fresh
connection is dropped with a logged operator notification. -/
theorem C10_put_before_first_value_witness :
    conn0.signal_type = none ∧
    put_value conn0 (.pInt 5) = ([.logged, .opNotify], none) :=
  ⟨rfl,
    (C10_put_before_first_value conn0 (.pInt 5) rfl
      (fun _ h => PyVal.noConfusion h)).1⟩
